import Mathlib

/-!
Verification of the generated-code assembler of the `unittest-ai-agent`
repository (`src/ut/cli/commands/generate.py`, `src/ut/parser.py`,
`src/ut/cli/commands/file_processor.py`).

Python strings are modelled as lists of characters (`Str`).  Python `set`s of
strings are modelled as duplicate-free lists in insertion order; the only
set consumers in the modelled code are membership tests, unions, `sorted(...)`
and one linear search, so insertion order is a faithful deterministic
refinement of CPython's unspecified iteration order.
-/

namespace UTGen

/-- Python `str` modelled as a list of characters. -/
abbrev Str := List Char

/-- The characters stripped by Python's `str.strip()` (ASCII whitespace; the
    modelled texts are ASCII). -/
def isPyWs (c : Char) : Bool :=
  c = ' ' || c = '\t' || c = '\n' || c = '\r' || c = Char.ofNat 11 || c = Char.ofNat 12

/-- Remove leading and trailing characters satisfying `p`
    (Python `str.strip(chars)`). -/
def stripWith (p : Char → Bool) (s : Str) : Str :=
  ((s.dropWhile p).reverse.dropWhile p).reverse

/-- Python `str.strip()`. -/
def pyStrip (s : Str) : Str := stripWith isPyWs s

/-- Python `str.strip("```")` — strips the character set `{'`'}`. -/
def pyStripBackticks (s : Str) : Str := stripWith (fun c => c = '`') s

/-- Python `sub in s` (substring containment). -/
def pyContains (s sub : Str) : Bool :=
  match s with
  | [] => sub.isEmpty
  | c :: t => sub.isPrefixOf (c :: t) || pyContains t sub

/-- Python `s.startswith(pre)`. -/
def pyStarts (s pre : Str) : Bool := pre.isPrefixOf s

/-- The recursion of `pyReplace`, structural in a fuel count so that the
    kernel can evaluate it; every call site passes `s.length`, which the
    congruence lemma below shows is always enough fuel. -/
def pyReplaceAux (old new : Str) : Nat → Str → Str
  | _, [] => []
  | 0, s => s
  | fuel + 1, c :: t =>
    if old ≠ [] ∧ old.isPrefixOf (c :: t) = true then
      new ++ pyReplaceAux old new fuel ((c :: t).drop old.length)
    else
      c :: pyReplaceAux old new fuel t

/-- Python `s.replace(old, new)` (all non-overlapping occurrences, left to
    right).  The modelled callers never pass an empty `old`; for `old = []`
    this returns `s` unchanged instead of Python's everywhere-insertion. -/
def pyReplace (old new : Str) (s : Str) : Str := pyReplaceAux old new s.length s

theorem prefixOf_length_le :
    ∀ (x s : List Char), x.isPrefixOf s = true → x.length ≤ s.length := by
  intro x
  induction x with
  | nil => intro s _; simp
  | cons a as ih =>
    intro s hx
    cases s with
    | nil => simp [List.isPrefixOf] at hx
    | cons b bs =>
      simp only [List.isPrefixOf, Bool.and_eq_true] at hx
      have := ih bs hx.2
      simp only [List.length_cons]
      omega

theorem pyReplaceAux_congr (old new : Str) :
    ∀ (f1 : Nat) (s : Str), s.length ≤ f1 →
      pyReplaceAux old new f1 s = pyReplaceAux old new s.length s := by
  intro f1
  induction f1 using Nat.strong_induction_on with
  | _ f1 ih =>
    intro s hle
    cases s with
    | nil => cases f1 <;> rfl
    | cons c t =>
      cases f1 with
      | zero => simp at hle
      | succ g =>
        simp only [List.length_cons] at hle
        simp only [pyReplaceAux, List.length_cons]
        by_cases hcond : old ≠ [] ∧ old.isPrefixOf (c :: t) = true
        · rw [if_pos hcond, if_pos hcond]
          congr 1
          have hpos : 0 < old.length := List.length_pos.mpr hcond.1
          have hle2 : old.length ≤ t.length + 1 := prefixOf_length_le _ _ hcond.2
          have hdl : ((c :: t).drop old.length).length ≤ g := by
            simp only [List.length_drop, List.length_cons]
            omega
          rw [ih g (by omega) _ hdl]
          have hdl2 : ((c :: t).drop old.length).length ≤ t.length := by
            simp only [List.length_drop, List.length_cons]
            omega
          rw [ih t.length (by omega) _ hdl2]
        · rw [if_neg hcond, if_neg hcond]
          congr 1
          rw [ih g (by omega) _ (by omega)]

theorem pyReplace_nil (old new : Str) : pyReplace old new [] = [] := rfl

theorem pyReplace_cons (old new : Str) (c : Char) (t : Str) :
    pyReplace old new (c :: t) =
      if old ≠ [] ∧ old.isPrefixOf (c :: t) = true then
        new ++ pyReplace old new ((c :: t).drop old.length)
      else
        c :: pyReplace old new t := by
  show pyReplaceAux old new (t.length + 1) (c :: t) = _
  simp only [pyReplaceAux]
  by_cases hcond : old ≠ [] ∧ old.isPrefixOf (c :: t) = true
  · rw [if_pos hcond, if_pos hcond]
    congr 1
    have hpos : 0 < old.length := List.length_pos.mpr hcond.1
    apply pyReplaceAux_congr
    simp only [List.length_drop, List.length_cons]
    omega
  · rw [if_neg hcond, if_neg hcond]
    rfl

/-- Python `s.split(c)` for a one-character separator. -/
def pySplitChar (c : Char) : Str → List Str
  | [] => [[]]
  | ch :: rest =>
    match pySplitChar c rest with
    | [] => [[ch]]
    | h :: t => if ch = c then [] :: h :: t else (ch :: h) :: t

/-- The recursion of `pySplitOn`, structural in a fuel count. -/
def pySplitOnAux (sep : Str) : Nat → Str → List Str
  | _, [] => [[]]
  | 0, s => [s]
  | fuel + 1, c :: t =>
    if sep ≠ [] ∧ sep.isPrefixOf (c :: t) = true then
      [] :: pySplitOnAux sep fuel ((c :: t).drop sep.length)
    else
      match pySplitOnAux sep fuel t with
      | [] => [[c]]
      | h :: r => (c :: h) :: r

/-- Python `s.split(sep)` for a non-empty separator string. -/
def pySplitOn (sep : Str) (s : Str) : List Str := pySplitOnAux sep s.length s

/-- Python `sep.join(parts)`. -/
def pyJoin (sep : Str) : List Str → Str
  | [] => []
  | [x] => x
  | x :: y :: t => x ++ sep ++ pyJoin sep (y :: t)

/-- `"\n".join(parts)`. -/
def joinNl (parts : List Str) : Str := pyJoin ['\n'] parts

/-- Lexicographic (code-point) strict order on strings, as Python compares
    `str` values. -/
def strLtB : Str → Str → Bool
  | [], [] => false
  | [], _ :: _ => true
  | _ :: _, [] => false
  | a :: as, b :: bs => if a < b then true else if b < a then false else strLtB as bs

/-- Insert into an ascending list, after existing equal elements (stable). -/
def insertLe (x : Str) : List Str → List Str
  | [] => [x]
  | y :: ys => if strLtB x y then x :: y :: ys else y :: insertLe x ys

/-- Python `sorted(...)` on strings (stable ascending sort). -/
def pySorted (l : List Str) : List Str :=
  l.foldl (fun acc x => insertLe x acc) []

/-- `set.add`: append if not already present (insertion-ordered set model). -/
def setAdd (s : List Str) (x : Str) : List Str :=
  if x ∈ s then s else s ++ [x]

/-- `set.union`. -/
def setUnion (a b : List Str) : List Str := b.foldl setAdd a

/-! ## Snippet recovery parser: `extract_imports_and_functions` (generate.py:287-375) -/

/-- Scanner state of the line loop: recovered import set, emitted function
    blocks, the block being accumulated, the `in_function` flag and the
    pending decorator lines. -/
structure ScanState where
  imports : List Str
  functions : List Str
  current : List Str
  inFunction : Bool
  decorators : List Str
deriving Repr, DecidableEq

def initScan : ScanState := ⟨[], [], [], false, []⟩

/-- The import acceptance filter: `"from test_" not in line and "TODO:" not in line`
    (generate.py:312, 346). -/
def importKeep (line : Str) : Bool :=
  !pyContains line ("from test_".toList) && !pyContains line ("TODO:".toList)

/-- `line.strip().startswith(("import ", "from "))`. -/
def isImportish (l : Str) : Bool :=
  pyStarts l ("import ".toList) || pyStarts l ("from ".toList)

/-- One iteration of the line loop of `extract_imports_and_functions`
    (generate.py:304-349), transcribed branch by branch. -/
def scanLine (st : ScanState) (line : Str) : ScanState :=
  let ls := pyStrip line
  if ls = [')'] || (pyStarts ls ['#'] && !st.inFunction) then st
  else if isImportish ls && !st.inFunction then
    if importKeep line then { st with imports := setAdd st.imports ls } else st
  else if pyStarts ls ['@'] then
    { st with
      functions :=
        if st.current ≠ [] then st.functions ++ [joinNl st.current] else st.functions,
      current := [],
      decorators := st.decorators ++ [line],
      inFunction := false }
  else if pyStarts line ("def test_".toList) then
    { st with
      functions :=
        if st.current ≠ [] then st.functions ++ [joinNl st.current] else st.functions,
      current := st.decorators ++ [line],
      decorators := [],
      inFunction := true }
  else if st.inFunction then
    if line ≠ [] && !isPyWs (line.headD ' ') && !pyStarts line ['@'] && !pyStarts line ['#']
    then
      { st with
        functions :=
          if st.current ≠ [] && pyStrip (joinNl st.current) ≠ [] then
            st.functions ++ [joinNl st.current]
          else st.functions,
        current := [],
        inFunction := false,
        decorators := [],
        imports :=
          if isImportish ls && importKeep line then setAdd st.imports ls else st.imports }
    else
      { st with current := st.current ++ [line] }
  else st

/-- `"assert" in f or "pass" in f or "raise" in f` — the completeness test of
    generate.py:355-359. -/
def isCompleteBlock (f : Str) : Bool :=
  pyContains f ("assert".toList) || pyContains f ("pass".toList) ||
    pyContains f ("raise".toList)

/-- The block still open at end of input is emitted only when non-blank and
    complete (generate.py:351-360). -/
def eofBlock (st : ScanState) : List Str :=
  if st.current ≠ [] && pyStrip (joinNl st.current) ≠ [] then
    if isCompleteBlock (joinNl st.current) then [joinNl st.current] else []
  else []

def defTestLit : Str := "def test_".toList

/-- First line of a block that starts with `def test_` (the inner loop of
    generate.py:367-373 inspects lines in order and breaks at the first one). -/
def findDefLine (f : Str) : Option Str :=
  (pySplitChar '\n' f).find? (fun l => pyStarts l defTestLit)

/-- `line.split("(")[0].replace("def ", "")` (generate.py:369). -/
def nameFromLine (l : Str) : Str :=
  pyReplace ("def ".toList) [] ((pySplitChar '(' l).headD [])

/-- Declared test-function name of a block, if any. -/
def blockName (f : Str) : Option Str := (findDefLine f).map nameFromLine

/-- The duplicate-name removal pass of generate.py:362-375: first occurrence
    of each declared name wins; blocks without a `def test_` line are dropped. -/
def dedupAux (seen : List Str) : List Str → List Str
  | [] => []
  | f :: rest =>
    match findDefLine f with
    | none => dedupAux seen rest
    | some dl =>
      let nm := nameFromLine dl
      if nm ∈ seen then dedupAux seen rest
      else f :: dedupAux (seen ++ [nm]) rest

def scanLines (lines : List Str) : ScanState := lines.foldl scanLine initScan

/-- `test_code.strip().split("\n")` (generate.py:297). -/
def linesOf (text : Str) : List Str := pySplitChar '\n' (pyStrip text)

/-- All blocks collected before deduplication: the blocks closed during the
    scan followed by the end-of-input block (if emitted). -/
def rawFunctions (st : ScanState) : List Str := st.functions ++ eofBlock st

/-- `extract_imports_and_functions(test_code)` (generate.py:287-375). -/
def extractImportsAndFunctions (text : Str) : List Str × List Str :=
  let st := scanLines (linesOf text)
  (st.imports, dedupAux [] (rawFunctions st))

/-! ## Import classifier and assembler: `combine_test_code` (generate.py:378-486)
    and `refine_local_imports` (generate.py:489-567) -/

/-- The recognized standard-library module names (generate.py:399-411). -/
def stdlibModules : List Str :=
  ["unittest", "datetime", "os", "sys", "json", "typing", "collections",
   "itertools", "functools", "pathlib", "re"].map (·.toList)

/-- The recognized third-party module names (generate.py:414-424). -/
def thirdPartyModules : List Str :=
  ["pytest", "mock", "unittest.mock", "numpy", "pandas", "requests",
   "flask", "django", "fastapi"].map (·.toList)

/-- `imp.startswith(("import ", "from "))` on a raw line (generate.py:428). -/
def isImportLine (imp : Str) : Bool :=
  pyStarts imp ("import ".toList) || pyStarts imp ("from ".toList)

/-- `any(module in imp for module in stdlib_modules)` (generate.py:432). -/
def isStdRecognized (imp : Str) : Bool :=
  stdlibModules.any (fun m => pyContains imp m)

/-- `any(module in imp for module in third_party_modules)` (generate.py:433). -/
def isThirdRecognized (imp : Str) : Bool :=
  thirdPartyModules.any (fun m => pyContains imp m)

/-- Classification of one import line into the (standard, third-party, local)
    buckets — the loop body of generate.py:426-443. -/
def bucketStep (p : Str) (acc : List Str × List Str × List Str) (imp : Str) :
    List Str × List Str × List Str :=
  match acc with
  | (s, t, l) =>
    if !isImportLine imp then (s, t, l)
    else if isStdRecognized imp then (s ++ [imp], t, l)
    else if isThirdRecognized imp then (s, t ++ [imp], l)
    else if pyContains imp p || pyStarts imp ("from ".toList ++ p) then (s, t, l ++ [imp])
    else (s, t ++ [imp], l)

/-- The three import buckets built from `sorted(imports)`. -/
def bucketsOf (imports : List Str) (p : Str) : List Str × List Str × List Str :=
  (pySorted imports).foldl (bucketStep p) ([], [], [])

/-- The placeholder module names of `refine_local_imports` (generate.py:507-517);
    Python's trailing `None` entry (when the stem is not `test_`-prefixed) can
    never equal a string and is omitted. -/
def placeholdersFor (stem : Str) : List Str :=
  ["some_module", "your_module", "module_name", "my_module", "sample_module",
   "<module_name>", "path.to.module"].map (·.toList)
    ++ [("test_".toList ++ stem)]
    ++ (if pyStarts stem ("test_".toList) then [stem] else [])

/-- The per-symbol body of the multi-import split in `refine_local_imports`
    (generate.py:549-555): each non-empty, non-`*` symbol is recorded under its
    `(module, symbol)` key and rendered as a single `from` line. -/
def addRefinedItem (fp : Str) (acc2 : List Str × List Str) (itemRaw : Str) :
    List Str × List Str :=
  let item := pyStrip itemRaw
  if item ≠ [] && item ≠ ['*'] then
    let key := fp ++ ['.'] ++ item
    if key ∈ acc2.2 then acc2
    else
      (setAdd acc2.1 ("from ".toList ++ fp ++ " import ".toList ++ item),
       acc2.2 ++ [key])
  else acc2

/-- The loop body of `refine_local_imports` (generate.py:519-560), threading
    the `refined` set and the `imported_items` key set. -/
def refineStep (p : Str) (phs : List Str) (acc : List Str × List Str) (imp0 : Str) :
    List Str × List Str :=
  match acc with
  | (refined, items) =>
    if pyContains imp0 [')'] && !pyContains imp0 ("import".toList) then (refined, items)
    else if pyContains imp0 ("TODO:".toList) || pyContains imp0 ['#'] then (refined, items)
    else
      let imp := phs.foldl (fun s ph => pyReplace ph p s) imp0
      if pyContains imp ("from ".toList) && pyContains imp (" import ".toList) then
        let parts := pySplitOn (" import ".toList) imp
        if parts.length = 2 then
          let fromPart := pyStrip (pyReplace ("from ".toList) [] (parts.headD []))
          let importPart := pyStrip (parts.getD 1 [])
          if pyContains fromPart ("test_".toList) then (refined, items)
          else
            let fp := if fromPart ∈ phs || fromPart = p then p else fromPart
            (pySplitChar ',' importPart).foldl (addRefinedItem fp) (refined, items)
        else (refined, items)
      else if pyStarts imp ("import ".toList) then
        let module := pyStrip (pyReplace ("import ".toList) [] imp)
        if module ∉ phs && !pyContains module ("test_".toList) then
          (setAdd refined imp, items)
        else (refined, items)
      else (refined, items)

/-- `refine_local_imports(imports, module_import_path, file_stem)`
    (generate.py:489-567). -/
def refineLocalImports (imports : List Str) (p stem : Str) : List Str :=
  let phs := placeholdersFor stem
  let r0 := (imports.foldl (refineStep p phs) ([], [])).1
  let r1 :=
    if !(r0.any (fun i => pyContains i p)) then
      setAdd r0 ("from ".toList ++ p ++ " import *".toList)
    else r0
  pySorted r1

/-- `f'"""Tests for {module_name} module."""'` (generate.py:449). -/
def docLine (n : Str) : Str :=
  "\"\"\"Tests for ".toList ++ n ++ " module.\"\"\"".toList

/-- The third-party bucket after the unconditional pytest guarantee
    (generate.py:457-459). -/
def thirdWithPytest (t : List Str) : List Str :=
  if !(t.any (fun i => pyContains i ("pytest".toList))) then
    ("import pytest".toList) :: t
  else t

/-- Function blocks with the two separating blank lines between consecutive
    blocks (generate.py:477-481). -/
def renderFns : List Str → List Str
  | [] => []
  | f :: rest => f :: rest.flatMap (fun g => [[], [], g])

/-- The `content_parts` list that `combine_test_code` joins with newlines
    (generate.py:445-484). -/
def contentParts (imports : List Str) (fns : List Str) (n p : Str) : List Str :=
  match bucketsOf imports p with
  | (s, t, l) =>
    let t' := thirdWithPytest t
    [docLine n, []]
      ++ (if s ≠ [] then s ++ [[]] else [])
      ++ (if t' ≠ [] then t' ++ [[]] else [])
      ++ (if l ≠ [] then refineLocalImports l p n ++ [[]] else [])
      ++ [[]]
      ++ renderFns fns
      ++ [[]]

/-- `combine_test_code(imports, test_functions, module_name, module_import_path)`
    (generate.py:378-486). -/
def combineTestCode (imports : List Str) (testFunctions : List Str)
    (moduleName moduleImportPath : Str) : Str :=
  joinNl (contentParts imports testFunctions moduleName moduleImportPath)

/-! ## Incremental append: `append_test_to_file` (generate.py:570-614),
    existing-file branch, as a pure function of the existing file text, the
    new generated text and the test file's stem -/

/-- `append_test_to_file` when the test file already exists: re-extract both
    texts, union imports, concatenate functions, recover the module import
    path from the first `from X import Y` line without `pytest` among the
    existing imports (falling back to `your_module`), and re-render. -/
def appendTestCode (existingContent testCode stem : Str) : Str :=
  let new := extractImportsAndFunctions testCode
  let ex := extractImportsAndFunctions existingContent
  let allImports := setUnion ex.1 new.1
  let allFns := ex.2 ++ new.2
  let mip :=
    match ex.1.find? (fun imp =>
        pyContains imp ("from ".toList) && pyContains imp (" import ".toList) &&
          !pyContains imp ("pytest".toList)) with
    | some imp =>
      pyStrip (pyReplace ("from ".toList) [] ((pySplitOn (" import ".toList) imp).headD []))
    | none => "your_module".toList
  combineTestCode allImports allFns (pyReplace ("test_".toList) [] stem) mip

/-! ## Snippet normalizer: `postprocess_test_code_enhanced` (generate.py:648-717) -/

def fenceLit : Str := "```".toList

/-- The recursion of `stripFences`, structural in a fuel count. -/
def stripFencesAux : Nat → Str → Str
  | _, [] => []
  | 0, s => s
  | fuel + 1, c :: t =>
    if fenceLit.isPrefixOf (c :: t) = true then
      stripFencesAux fuel
        (if ("python".toList).isPrefixOf ((c :: t).drop 3) = true then
          ((c :: t).drop 3).drop 6
        else (c :: t).drop 3)
    else c :: stripFencesAux fuel t

/-- `re.sub(r"```(?:python)?", "", text)`: every triple backtick, together
    with an immediately following `python` tag, is removed; scanning resumes
    after the match. -/
def stripFences (s : Str) : Str := stripFencesAux s.length s

/-- `[\w.]` on the ASCII texts modelled here. -/
def wordDotChar (c : Char) : Bool := c.isAlphanum || c = '_' || c = '.'

def fromDotLit : Str := "from .".toList

/-- `re.sub(r"from \.([\w\.]*) import", f"from {path}\\1 import", text)`:
    left-to-right scan; at each position a literal `from .` followed by a
    maximal run of word/dot characters and the literal ` import` is rewritten
    (the run is maximal because regex backtracking cannot make a space follow a
    shorter run); otherwise scanning advances one character. -/
def relRewriteAux (p : Str) : Nat → Str → Str
  | _, [] => []
  | 0, s => s
  | fuel + 1, c :: t =>
    if fromDotLit.isPrefixOf (c :: t) = true then
      let r1 := (c :: t).drop 6
      let run := r1.takeWhile wordDotChar
      let r2 := r1.drop run.length
      if (" import".toList).isPrefixOf r2 = true then
        "from ".toList ++ p ++ run ++ " import".toList ++ relRewriteAux p fuel (r2.drop 7)
      else c :: relRewriteAux p fuel t
    else c :: relRewriteAux p fuel t

def relRewrite (p : Str) (s : Str) : Str := relRewriteAux p s.length s

/-- The placeholder module tokens of the normalizer (generate.py:673-680). -/
def normalizerPlaceholders : List Str :=
  ["your_module", "module_name", "my_module", "sample_module",
   "<module_name>", "path.to.module"].map (·.toList)

/-- The duplicate-import cleanup of generate.py:704-715: an import line equal
    to an earlier import line is dropped, all other lines are kept. -/
def dedupImportLinesAux (seen : List Str) : List Str → List Str
  | [] => []
  | line :: rest =>
    if isImportish (pyStrip line) then
      if line ∈ seen then dedupImportLinesAux seen rest
      else line :: dedupImportLinesAux (seen ++ [line]) rest
    else line :: dedupImportLinesAux seen rest

/-- Fence removal and boundary trimming (generate.py:669-671):
    `re.sub(r"```(?:python)?", "", t).strip("```").strip()`. -/
def ppFenced (t : Str) : Str := pyStrip (pyStripBackticks (stripFences t))

/-- The placeholder substitution loop (generate.py:682-688): for each
    placeholder, `from <ph>` and then `import <ph>` are replaced by the
    real-path forms. -/
def ppPlaceholders (p : Str) (t : Str) : Str :=
  normalizerPlaceholders.foldl
    (fun s ph =>
      pyReplace ("import ".toList ++ ph) ("import ".toList ++ p)
        (pyReplace ("from ".toList ++ ph) ("from ".toList ++ p) s)) t

/-- Relative-import rewriting (generate.py:690-696), applied only when
    `"from ."` occurs in the text. -/
def ppRelative (p : Str) (t : Str) : Str :=
  if pyContains t fromDotLit then relRewrite p t else t

/-- Synthetic import insertion (generate.py:698-702). -/
def ppInsert (p fn : Str) (t : Str) : Str :=
  if !pyContains t p && pyContains t fn then
    if !pyStarts t ("import".toList) && !pyStarts t ("from".toList) then
      "from ".toList ++ p ++ " import ".toList ++ fn ++ "\n\n".toList ++ t
    else t
  else t

/-- Duplicate-import cleanup and final trim (generate.py:704-717). -/
def ppDedup (t : Str) : Str :=
  pyStrip (joinNl (dedupImportLinesAux [] (pySplitChar '\n' t)))

/-- `postprocess_test_code_enhanced(test_code, function_name,
    module_import_path, module_name)` (generate.py:648-717); `module_name` is
    accepted and unused, as in the source. -/
def postprocessTestCodeEnhanced (testCode functionName moduleImportPath moduleName : Str) :
    Str :=
  ppDedup (ppInsert moduleImportPath functionName
    (ppRelative moduleImportPath (ppPlaceholders moduleImportPath (ppFenced testCode))))

/-- The normalizer with each stage lifted into `Except`, mirroring the Python
    exception channel: none of the string operations used by the source can
    raise on `str` inputs, so no stage produces an error. -/
def postprocessE (testCode functionName moduleImportPath moduleName : Str) :
    Except Str Str := do
  let a ← pure (ppFenced testCode)
  let b ← pure (ppPlaceholders moduleImportPath a)
  let c ← pure (ppRelative moduleImportPath b)
  let d ← pure (ppInsert moduleImportPath functionName c)
  pure (ppDedup d)

/-! ## Structure extractor: `source_code_analysis` (parser.py:5-65) and its
    caller `process_file` (file_processor.py:24-53)

    `ast.parse` is the external parser the extractor delegates to; it is
    modelled as an oracle parameter returning either a `SyntaxError` message or
    the parsed tree.  Everything `source_code_analysis` does after the parse
    (walking, rendering, parent lookup) is total, transcribed below. -/

/-- Python AST nodes as used by `source_code_analysis`: each node carries the
    text `ast.unparse` renders for it.  `other` covers every node kind the
    analysis does not inspect. -/
inductive PyNode where
  | module (id : Nat) (body : List PyNode)
  | classDef (id : Nat) (src : Str) (body : List PyNode)
  | functionDef (id : Nat) (name : Str) (src : Str) (body : List PyNode)
  | importNode (id : Nat) (src : Str)
  | importFromNode (id : Nat) (src : Str)
  | other (id : Nat) (children : List PyNode)

/-- CPython keys the parent map by object identity; each node carries a
    numeric identity for that purpose. -/
def nodeId : PyNode → Nat
  | .module i _ => i
  | .classDef i _ _ => i
  | .functionDef i _ _ _ => i
  | .importNode i _ => i
  | .importFromNode i _ => i
  | .other i _ => i

def childrenOf : PyNode → List PyNode
  | .module _ b => b
  | .classDef _ _ b => b
  | .functionDef _ _ _ b => b
  | .importNode _ _ => []
  | .importFromNode _ _ => []
  | .other _ b => b

mutual
def nodeSize : PyNode → Nat
  | .module _ b => 1 + nodeListSize b
  | .classDef _ _ b => 1 + nodeListSize b
  | .functionDef _ _ _ b => 1 + nodeListSize b
  | .importNode _ _ => 1
  | .importFromNode _ _ => 1
  | .other _ b => 1 + nodeListSize b

def nodeListSize : List PyNode → Nat
  | [] => 0
  | n :: t => nodeSize n + nodeListSize t
end

/-- `ast.walk`: breadth-first traversal yielding each node before its
    descendants. -/
def walkAux : List PyNode → List PyNode
  | [] => []
  | n :: queue => n :: walkAux (queue ++ childrenOf n)
termination_by q => nodeListSize q
decreasing_by
  have happ : ∀ a b : List PyNode,
      nodeListSize (a ++ b) = nodeListSize a + nodeListSize b := by
    intro a
    induction a with
    | nil => intro b; simp [nodeListSize]
    | cons x xs ih => intro b; simp [nodeListSize, ih]; omega
  have hch : nodeListSize (childrenOf n) < nodeSize n := by
    cases n <;> simp [childrenOf, nodeSize, nodeListSize]
  simp only [nodeListSize, happ]
  omega

def walk (t : PyNode) : List PyNode := walkAux [t]

def importSrc : PyNode → Option Str
  | .importNode _ s => some s
  | .importFromNode _ s => some s
  | _ => none

/-- One extracted function record: name, rendered code, and the rendered
    enclosing class when the direct parent is a class definition. -/
structure FuncAnalysis where
  functionName : Str
  functionCode : Str
  parentClassCode : Option Str
deriving DecidableEq

/-- `source_code_analysis` on the already-read source text: parse via the
    oracle, then extract rendered imports and per-function records.  The
    parent map is the comprehension of parser.py:38-42 (later entries
    overwrite, hence the reversed lookup); Python keys it by object identity,
    modelled here by the node identity number. -/
def sourceCodeAnalysis (parse : Str → Except Str PyNode) (sourceCode : Str) :
    Except Str (Str × List FuncAnalysis) :=
  match parse sourceCode with
  | .error e => .error e
  | .ok tree =>
    let nodes := walk tree
    let importsCode := joinNl (nodes.filterMap importSrc)
    let pairs := nodes.flatMap (fun parent => (childrenOf parent).map (fun c => (c, parent)))
    let fns := nodes.filterMap (fun n =>
      match n with
      | .functionDef _ nm src _ =>
        let parent := (pairs.reverse.find? (fun pr => nodeId pr.1 == nodeId n)).map (·.2)
        let pcc :=
          match parent with
          | some (.classDef _ csrc _) => some csrc
          | _ => none
        some ⟨nm, src, pcc⟩
      | _ => none)
    .ok (importsCode, fns)

/-- Outcome of `process_file` up to the point the cited claim concerns:
    analysis failure is caught and the file is skipped with a diagnostic;
    an empty function list is reported; otherwise generation proceeds. -/
inductive ProcessOutcome where
  | analysisFailed (msg : Str)
  | noFunctions
  | generated (importsCode : Str) (fns : List FuncAnalysis)
deriving DecidableEq

/-- The analysis stage of `process_file` (file_processor.py:49-60): the
    `try/except` around `source_code_analysis` turns any failure into a
    printed diagnostic and an early `return` — the run continues with other
    files instead of aborting. -/
def processFileAnalysis (parse : Str → Except Str PyNode) (sourceCode : Str) :
    ProcessOutcome :=
  match sourceCodeAnalysis parse sourceCode with
  | .error e => .analysisFailed e
  | .ok (ic, fns) => if fns.isEmpty then .noFunctions else .generated ic fns

/-! ## Per-file accumulation in `process_file` (generate.py:238-269):
    the valid-function filter and the cross-generation accumulation that feeds
    `combine_test_code` -/

/-- For each normalized generation, `process_file` extracts imports and
    blocks, keeps blocks that are non-blank and mention `def test_`, unions
    the imports and concatenates the blocks across generations. -/
def accumulateValid (cleanCodes : List Str) : List Str × List Str :=
  cleanCodes.foldl
    (fun acc code =>
      let e := extractImportsAndFunctions code
      let valid := e.2.filter (fun f => pyStrip f ≠ [] && pyContains f ("def test_".toList))
      if valid ≠ [] then (setUnion acc.1 e.1, acc.2 ++ valid) else acc)
    ([], [])

/-! ## Auxiliary lemmas about the string primitives -/

theorem prefixOf_iff (x s : Str) : x.isPrefixOf s = true ↔ ∃ b, s = x ++ b := by
  induction x generalizing s with
  | nil => simp [List.isPrefixOf]
  | cons a as ih =>
    cases s with
    | nil => simp [List.isPrefixOf]
    | cons c t =>
      simp only [List.isPrefixOf, Bool.and_eq_true, beq_iff_eq, ih, List.cons_append,
        List.cons.injEq]
      constructor
      · rintro ⟨rfl, b, rfl⟩; exact ⟨b, rfl, rfl⟩
      · rintro ⟨b, rfl, rfl⟩; exact ⟨rfl, b, rfl⟩

theorem pyContains_iff (s x : Str) : pyContains s x = true ↔ ∃ a b, s = a ++ x ++ b := by
  induction s with
  | nil =>
    simp only [pyContains, List.isEmpty_iff]
    constructor
    · rintro rfl; exact ⟨[], [], rfl⟩
    · rintro ⟨a, b, h⟩
      rcases List.append_eq_nil.mp h.symm with ⟨h1, h2⟩
      exact (List.append_eq_nil.mp h1).2
  | cons c t ih =>
    simp only [pyContains, Bool.or_eq_true, prefixOf_iff, ih]
    constructor
    · rintro (⟨b, h⟩ | ⟨a, b, h⟩)
      · exact ⟨[], b, by simpa using h⟩
      · exact ⟨c :: a, b, by simp [h]⟩
    · rintro ⟨a, b, h⟩
      cases a with
      | nil => exact Or.inl ⟨b, by simpa using h⟩
      | cons a0 a2 =>
        simp only [List.cons_append, List.cons.injEq] at h
        exact Or.inr ⟨a2, b, h.2⟩

theorem pyContains_mono_left {a x : Str} (b : Str) (h : pyContains a x = true) :
    pyContains (a ++ b) x = true := by
  rcases (pyContains_iff a x).mp h with ⟨u, v, rfl⟩
  exact (pyContains_iff _ x).mpr ⟨u, v ++ b, by simp⟩

theorem pyContains_mono_right {b x : Str} (a : Str) (h : pyContains b x = true) :
    pyContains (a ++ b) x = true := by
  rcases (pyContains_iff b x).mp h with ⟨u, v, rfl⟩
  exact (pyContains_iff _ x).mpr ⟨a ++ u, v, by simp⟩

theorem pyContains_of_prefixOf {s x : Str} (h : x.isPrefixOf s = true) :
    pyContains s x = true := by
  rcases (prefixOf_iff x s).mp h with ⟨b, rfl⟩
  exact (pyContains_iff _ x).mpr ⟨[], b, by simp⟩

theorem pyContains_refl (s : Str) : pyContains s s = true :=
  (pyContains_iff s s).mpr ⟨[], [], by simp⟩

theorem pyContains_trans {s l x : Str} (h1 : pyContains s l = true)
    (h2 : pyContains l x = true) : pyContains s x = true := by
  rcases (pyContains_iff s l).mp h1 with ⟨u, v, rfl⟩
  rcases (pyContains_iff l x).mp h2 with ⟨u2, v2, rfl⟩
  exact (pyContains_iff _ x).mpr ⟨u ++ u2, v2 ++ v, by simp⟩

theorem pyContains_drop_left {s a b : Str} (h : pyContains s (a ++ b) = true) :
    pyContains s b = true := by
  rcases (pyContains_iff s (a ++ b)).mp h with ⟨u, v, rfl⟩
  exact (pyContains_iff _ b).mpr ⟨u ++ a, v, by simp⟩

theorem stripWith_infix (p : Char → Bool) (s : Str) :
    ∃ a b, s = a ++ stripWith p s ++ b := by
  unfold stripWith
  refine ⟨s.takeWhile p, ((s.dropWhile p).reverse.takeWhile p).reverse, ?_⟩
  have h1 : s.takeWhile p ++ s.dropWhile p = s := List.takeWhile_append_dropWhile p s
  have h2 : (s.dropWhile p).reverse.takeWhile p ++ (s.dropWhile p).reverse.dropWhile p
      = (s.dropWhile p).reverse := List.takeWhile_append_dropWhile p (s.dropWhile p).reverse
  have h3 : s.dropWhile p
      = ((s.dropWhile p).reverse.dropWhile p).reverse
        ++ ((s.dropWhile p).reverse.takeWhile p).reverse := by
    have h4 := congrArg List.reverse h2
    simp only [List.reverse_append, List.reverse_reverse] at h4
    exact h4.symm
  calc s = s.takeWhile p ++ s.dropWhile p := h1.symm
    _ = s.takeWhile p
          ++ (((s.dropWhile p).reverse.dropWhile p).reverse
          ++ ((s.dropWhile p).reverse.takeWhile p).reverse) := by rw [← h3]
    _ = _ := by simp

theorem pyContains_of_stripWith {p : Char → Bool} {s x : Str}
    (h : pyContains (stripWith p s) x = true) : pyContains s x = true := by
  obtain ⟨a, b, hs⟩ := stripWith_infix p s
  rw [hs]
  rw [List.append_assoc]
  exact pyContains_mono_right a (pyContains_mono_left b h)

theorem pyContains_of_pyStrip {s x : Str} (h : pyContains (pyStrip s) x = true) :
    pyContains s x = true := pyContains_of_stripWith h

theorem mem_setAdd {s : List Str} {x y : Str} (h : y ∈ setAdd s x) : y ∈ s ∨ y = x := by
  unfold setAdd at h
  split at h
  · exact Or.inl h
  · simpa using h

theorem mem_insertLe {x y : Str} {l : List Str} (h : y ∈ insertLe x l) :
    y = x ∨ y ∈ l := by
  induction l with
  | nil => simpa [insertLe] using h
  | cons z zs ih =>
    simp only [insertLe] at h
    split at h
    · simpa using h
    · rcases List.mem_cons.mp h with h1 | h2
      · exact Or.inr (by simp [h1])
      · rcases ih h2 with h3 | h4
        · exact Or.inl h3
        · exact Or.inr (by simp [h4])

theorem mem_pySorted_foldl {y : Str} :
    ∀ (l acc : List Str), y ∈ l.foldl (fun acc x => insertLe x acc) acc →
      y ∈ acc ∨ y ∈ l := by
  intro l
  induction l with
  | nil => intro acc h; exact Or.inl h
  | cons x t ih =>
    intro acc h
    rcases ih (insertLe x acc) h with h1 | h2
    · rcases mem_insertLe h1 with h3 | h4
      · exact Or.inr (by simp [h3])
      · exact Or.inl h4
    · exact Or.inr (by simp [h2])

theorem mem_pySorted {l : List Str} {y : Str} (h : y ∈ pySorted l) : y ∈ l := by
  rcases mem_pySorted_foldl l [] h with h1 | h2
  · simp at h1
  · exact h2

theorem pyContains_pyJoin_of_mem {sep x : Str} :
    ∀ {parts : List Str}, x ∈ parts → pyContains (pyJoin sep parts) x = true := by
  intro parts
  induction parts with
  | nil => intro h; simp at h
  | cons y rest ih =>
    intro h
    cases rest with
    | nil =>
      rcases List.mem_cons.mp h with h1 | h2
      · subst h1; exact pyContains_refl x
      · simp at h2
    | cons z t =>
      rcases List.mem_cons.mp h with h1 | h2
      · subst h1
        show pyContains (x ++ sep ++ pyJoin sep (z :: t)) x = true
        rw [List.append_assoc]
        exact pyContains_mono_left _ (pyContains_refl x)
      · show pyContains (y ++ sep ++ pyJoin sep (z :: t)) x = true
        rw [List.append_assoc]
        exact pyContains_mono_right _ (pyContains_mono_right _ (ih h2))

theorem pySplitChar_ne_nil (c : Char) (s : Str) : pySplitChar c s ≠ [] := by
  cases s with
  | nil => simp [pySplitChar]
  | cons ch rest =>
    simp only [pySplitChar]
    split
    · simp
    · split <;> simp

theorem joinNl_splitChar (t : Str) : joinNl (pySplitChar '\n' t) = t := by
  unfold joinNl
  induction t with
  | nil => simp [pySplitChar, pyJoin]
  | cons ch rest ih =>
    rcases hsp : pySplitChar '\n' rest with _ | ⟨h, r⟩
    · exact absurd hsp (pySplitChar_ne_nil _ _)
    · rw [hsp] at ih
      have hsplit : pySplitChar '\n' (ch :: rest)
          = if ch = '\n' then [] :: h :: r else (ch :: h) :: r := by
        simp only [pySplitChar, hsp]
      rw [hsplit]
      by_cases hc : ch = '\n'
      · subst hc
        rw [if_pos rfl]
        simp [pyJoin, ih]
      · rw [if_neg hc]
        cases r with
        | nil => simp [pyJoin] at ih ⊢; simp [ih]
        | cons r0 r1 =>
          simp only [pyJoin] at ih ⊢
          rw [← ih]
          simp

/-! ## Lemmas about the deduplication pass -/

theorem dedupAux_spec :
    ∀ (L seen : List Str),
      ((dedupAux seen L).map blockName).Nodup ∧
      ∀ f ∈ dedupAux seen L, ∃ nm, blockName f = some nm ∧ nm ∉ seen ∧
        L.find? (fun g => blockName g == blockName f) = some f := by
  intro L
  induction L with
  | nil =>
    intro seen
    constructor
    · simp [dedupAux]
    · intro f hf; simp [dedupAux] at hf
  | cons g rest ih =>
    intro seen
    rcases hg : findDefLine g with _ | dl
    · have hbn : blockName g = none := by simp [blockName, hg]
      simp only [dedupAux, hg]
      refine ⟨(ih seen).1, ?_⟩
      intro f hf
      obtain ⟨nm, h1, h2, h3⟩ := (ih seen).2 f hf
      refine ⟨nm, h1, h2, ?_⟩
      have hpred : (blockName g == blockName f) = false := by
        rw [hbn, h1]; rfl
      simp [List.find?_cons, hpred, h3]
    · have hbn : blockName g = some (nameFromLine dl) := by simp [blockName, hg]
      by_cases hmem : nameFromLine dl ∈ seen
      · simp only [dedupAux, hg, if_pos hmem]
        refine ⟨(ih seen).1, ?_⟩
        intro f hf
        obtain ⟨nm, h1, h2, h3⟩ := (ih seen).2 f hf
        have hne : nameFromLine dl ≠ nm := fun he => h2 (he ▸ hmem)
        have hpred : (blockName g == blockName f) = false := by
          rw [hbn, h1]
          exact beq_eq_false_iff_ne.mpr (by simpa using hne)
        exact ⟨nm, h1, h2, by simp [List.find?_cons, hpred, h3]⟩
      · simp only [dedupAux, hg, if_neg hmem]
        have ih2 := ih (seen ++ [nameFromLine dl])
        constructor
        · refine List.nodup_cons.mpr ⟨?_, ih2.1⟩
          intro hmem2
          rcases List.mem_map.mp hmem2 with ⟨f, hf, hbf⟩
          obtain ⟨nm, h1, h2, _⟩ := ih2.2 f hf
          rw [h1, hbn] at hbf
          injection hbf with he
          exact h2 (by simp [he])
        · intro f hf
          rcases List.mem_cons.mp hf with rfl | hf2
          · refine ⟨nameFromLine dl, hbn, hmem, ?_⟩
            have hpred : (blockName f == blockName f) = true := by
              rw [hbn]; exact beq_self_eq_true _
            simp [List.find?_cons, hpred]
          · obtain ⟨nm, h1, h2, h3⟩ := ih2.2 f hf2
            have h2a : nm ∉ seen := fun hx => h2 (by simp [hx])
            have hne : nameFromLine dl ≠ nm := fun he => h2 (by simp [he])
            have hpred : (blockName g == blockName f) = false := by
              rw [hbn, h1]
              exact beq_eq_false_iff_ne.mpr (by simpa using hne)
            exact ⟨nm, h1, h2a, by simp [List.find?_cons, hpred, h3]⟩

theorem dedupAux_subset :
    ∀ (L seen : List Str) (f : Str), f ∈ dedupAux seen L → f ∈ L := by
  intro L
  induction L with
  | nil => intro seen f hf; simp [dedupAux] at hf
  | cons g rest ih =>
    intro seen f hf
    rcases hg : findDefLine g with _ | dl
    · simp only [dedupAux, hg] at hf
      exact List.mem_cons_of_mem g (ih seen f hf)
    · simp only [dedupAux, hg] at hf
      split at hf
      · exact List.mem_cons_of_mem g (ih seen f hf)
      · rcases List.mem_cons.mp hf with rfl | hf2
        · exact List.mem_cons_self _ _
        · exact List.mem_cons_of_mem g (ih _ f hf2)

/-! ## Lemmas about the line scanner's import set -/

theorem scanLine_imports_cases (st : ScanState) (line : Str) :
    ∀ x ∈ (scanLine st line).imports,
      x ∈ st.imports ∨ (x = pyStrip line ∧ importKeep line = true) := by
  intro x hx
  simp only [scanLine] at hx
  split at hx
  · exact Or.inl hx
  · split at hx
    · split at hx
      next hkeep =>
        have hx2 : x ∈ setAdd st.imports (pyStrip line) := hx
        rcases mem_setAdd hx2 with h | h
        · exact Or.inl h
        · exact Or.inr ⟨h, hkeep⟩
      next => exact Or.inl hx
    · split at hx
      · exact Or.inl hx
      · split at hx
        · exact Or.inl hx
        · split at hx
          · split at hx
            · split at hx
              next hadd =>
                have hk : importKeep line = true := by
                  simp only [Bool.and_eq_true] at hadd
                  exact hadd.2
                have hx2 : x ∈ setAdd st.imports (pyStrip line) := hx
                rcases mem_setAdd hx2 with h | h
                · exact Or.inl h
                · exact Or.inr ⟨h, hk⟩
              next => exact Or.inl hx
            · exact Or.inl hx
          · exact Or.inl hx

theorem scanFold_imports_pred (P : Str → Prop)
    (hstep : ∀ line x, x = pyStrip line → importKeep line = true → P x) :
    ∀ (lines : List Str) (st : ScanState),
      (∀ x ∈ st.imports, P x) →
      ∀ x ∈ (lines.foldl scanLine st).imports, P x := by
  intro lines
  induction lines with
  | nil => intro st h x hx; exact h x hx
  | cons line rest ih =>
    intro st h x hx
    refine ih (scanLine st line) ?_ x hx
    intro y hy
    rcases scanLine_imports_cases st line y hy with h1 | ⟨h2, h3⟩
    · exact h y h1
    · exact hstep line y h2 h3

theorem extract_imports_no_from_test (text : Str) :
    ∀ x ∈ (extractImportsAndFunctions text).1,
      pyContains x ("from test_".toList) = false := by
  intro x hx
  have hmain := scanFold_imports_pred
    (fun y => pyContains y ("from test_".toList) = false) ?_ (linesOf text) initScan ?_
  · exact hmain x hx
  · intro line y hy hk
    subst hy
    rcases hft : pyContains (pyStrip line) ("from test_".toList) with _ | _
    · rfl
    · exfalso
      have hl : pyContains line ("from test_".toList) = true := pyContains_of_pyStrip hft
      unfold importKeep at hk
      rw [hl] at hk
      simp at hk
  · intro y hy; simp [initScan] at hy

/-! ## Lemmas about `refine_local_imports` -/

theorem prefixOf_append_cancel (a x y : Str) :
    (a ++ x).isPrefixOf (a ++ y) = x.isPrefixOf y := by
  induction a with
  | nil => simp
  | cons c t ih => simp [List.isPrefixOf, ih]

theorem testLit_not_prefixOf_space (fp r : Str)
    (h : ("test_".toList).isPrefixOf fp = false) :
    ("test_".toList).isPrefixOf (fp ++ ' ' :: r) = false := by
  have hlit : ("test_".toList : Str) = ['t', 'e', 's', 't', '_'] := rfl
  rw [hlit] at h ⊢
  rcases fp with _ | ⟨a, _ | ⟨b, _ | ⟨c, _ | ⟨d, _ | ⟨e, fp5⟩⟩⟩⟩⟩ <;>
    simp only [List.nil_append, List.cons_append, List.isPrefixOf, Bool.and_true,
      Bool.and_eq_true, beq_iff_eq] at h ⊢ <;>
    first
      | exact h
      | simp_all

theorem addRefinedItem_mem (fp : Str) :
    ∀ (itemsL : List Str) (acc : List Str × List Str) (x : Str),
      x ∈ (itemsL.foldl (addRefinedItem fp) acc).1 →
      x ∈ acc.1 ∨ ∃ item, x = "from ".toList ++ fp ++ " import ".toList ++ item := by
  intro itemsL
  induction itemsL with
  | nil => intro acc x hx; exact Or.inl hx
  | cons i t ih =>
    intro acc x hx
    rcases ih (addRefinedItem fp acc i) x hx with h | h
    · simp only [addRefinedItem] at h
      split at h
      · split at h
        · exact Or.inl h
        · rcases mem_setAdd h with h3 | h3
          · exact Or.inl h3
          · exact Or.inr ⟨pyStrip i, h3⟩
      · exact Or.inl h
    · exact Or.inr h

theorem refineStep_mem (p : Str) (phs : List Str) (acc : List Str × List Str)
    (imp0 x : Str) (hx : x ∈ (refineStep p phs acc imp0).1) :
    x ∈ acc.1 ∨
      (∃ fp item, x = "from ".toList ++ fp ++ " import ".toList ++ item ∧
        (pyContains fp ("test_".toList) = false ∨ fp = p)) ∨
      pyStarts x ("import ".toList) = true := by
  obtain ⟨r0, it0⟩ := acc
  simp only [refineStep] at hx
  split at hx
  · exact Or.inl hx
  · split at hx
    · exact Or.inl hx
    · split at hx
      · split at hx
        · split at hx
          next htest => exact Or.inl hx
          next htest =>
            rw [Bool.not_eq_true] at htest
            rcases addRefinedItem_mem _ _ _ x hx with h | ⟨item, hit⟩
            · exact Or.inl h
            · refine Or.inr (Or.inl ⟨_, item, hit, ?_⟩)
              split
              · exact Or.inr rfl
              · exact Or.inl htest
        · exact Or.inl hx
      · split at hx
        next himp =>
          split at hx
          · rcases mem_setAdd hx with h3 | h3
            · exact Or.inl h3
            · exact Or.inr (Or.inr (by rw [h3]; exact himp))
          · exact Or.inl hx
        next => exact Or.inl hx

theorem refineFold_mem (p : Str) (phs : List Str) :
    ∀ (L : List Str) (acc : List Str × List Str) (x : Str),
      x ∈ (L.foldl (refineStep p phs) acc).1 →
      x ∈ acc.1 ∨
        (∃ fp item, x = "from ".toList ++ fp ++ " import ".toList ++ item ∧
          (pyContains fp ("test_".toList) = false ∨ fp = p)) ∨
        pyStarts x ("import ".toList) = true := by
  intro L
  induction L with
  | nil => intro acc x hx; exact Or.inl hx
  | cons i t ih =>
    intro acc x hx
    rcases ih (refineStep p phs acc i) x hx with h | h
    · rcases refineStep_mem p phs acc i x h with h1 | h1
      · exact Or.inl h1
      · exact Or.inr h1
    · exact Or.inr h

theorem refineLocalImports_mem (I : List Str) (p stem x : Str)
    (hx : x ∈ refineLocalImports I p stem) :
    (∃ fp item, x = "from ".toList ++ fp ++ " import ".toList ++ item ∧
      (pyContains fp ("test_".toList) = false ∨ fp = p)) ∨
    pyStarts x ("import ".toList) = true := by
  unfold refineLocalImports at hx
  have hx2 := mem_pySorted hx
  split at hx2
  · have hx3 : x ∈ setAdd (I.foldl (refineStep p (placeholdersFor stem)) ([], [])).1
        ("from ".toList ++ p ++ " import *".toList) := hx2
    rcases mem_setAdd hx3 with h | h
    · rcases refineFold_mem p (placeholdersFor stem) I ([], []) x h with h1 | h1
      · simp at h1
      · exact h1
    · refine Or.inl ⟨p, ['*'], ?_, Or.inr rfl⟩
      rw [h]
      simp
  · rcases refineFold_mem p (placeholdersFor stem) I ([], []) x hx2 with h1 | h1
    · simp at h1
    · exact h1

theorem refined_not_from_test (I : List Str) (p stem x : Str)
    (hp : pyStarts p ("test_".toList) = false)
    (hx : x ∈ refineLocalImports I p stem) :
    pyStarts x ("from test_".toList) = false := by
  rcases refineLocalImports_mem I p stem x hx with ⟨fp, item, heq, hfp⟩ | himp
  · subst heq
    unfold pyStarts
    have hfrom : ("from test_".toList : Str) = "from ".toList ++ "test_".toList := rfl
    rw [hfrom]
    have hassoc : ("from ".toList ++ fp ++ " import ".toList ++ item : Str)
        = "from ".toList ++ (fp ++ (" import ".toList ++ item)) := by simp
    rw [hassoc, prefixOf_append_cancel]
    have hsp : (" import ".toList ++ item : Str) = ' ' :: ("import ".toList ++ item) := rfl
    rw [hsp]
    apply testLit_not_prefixOf_space
    rcases hfp with h1 | h1
    · cases hpre : ("test_".toList).isPrefixOf fp
      · rfl
      · have hc := pyContains_of_prefixOf hpre
        rw [hc] at h1
        simp at h1
    · subst h1
      exact hp
  · unfold pyStarts at himp ⊢
    cases hpre : ("from test_".toList).isPrefixOf x
    · rfl
    · exfalso
      rcases (prefixOf_iff _ _).mp hpre with ⟨b1, rfl⟩
      rcases (prefixOf_iff _ _).mp himp with ⟨b2, heq2⟩
      have hch := congrArg (fun l => l.headD ' ') heq2
      have hch2 : ('f' : Char) = 'i' := hch
      exact absurd hch2 (by decide)

theorem refined_isImportLine (I : List Str) (p stem x : Str)
    (hx : x ∈ refineLocalImports I p stem) : isImportLine x = true := by
  rcases refineLocalImports_mem I p stem x hx with ⟨fp, item, heq, _⟩ | himp
  · subst heq
    have h1 : ("from ".toList).isPrefixOf
        ("from ".toList ++ fp ++ " import ".toList ++ item) = true := by
      apply (prefixOf_iff _ _).mpr
      exact ⟨fp ++ " import ".toList ++ item, by simp⟩
    unfold isImportLine pyStarts
    rw [h1]
    simp
  · unfold isImportLine
    rw [himp]
    rfl

/-! ## Lemmas about the import buckets of `combine_test_code` -/

theorem bucketStep_cases (p : Str) (acc : List Str × List Str × List Str) (imp : Str) :
    (∀ x ∈ (bucketStep p acc imp).1,
       x ∈ acc.1 ∨ (isImportLine x = true ∧ isStdRecognized x = true)) ∧
    (∀ x ∈ (bucketStep p acc imp).2.1,
       x ∈ acc.2.1 ∨ (isImportLine x = true ∧ isStdRecognized x = false)) := by
  obtain ⟨s, t, l⟩ := acc
  simp only [bucketStep]
  split
  · exact ⟨fun x hx => Or.inl hx, fun x hx => Or.inl hx⟩
  next hline =>
    have hline2 : isImportLine imp = true := by
      revert hline; cases isImportLine imp <;> simp
    split
    next hstd =>
      constructor
      · intro x hx
        rcases List.mem_append.mp hx with h | h
        · exact Or.inl h
        · simp at h
          subst h
          exact Or.inr ⟨hline2, hstd⟩
      · exact fun x hx => Or.inl hx
    next hstd =>
      have hstd2 : isStdRecognized imp = false := by
        revert hstd; cases isStdRecognized imp <;> simp
      split
      · constructor
        · exact fun x hx => Or.inl hx
        · intro x hx
          rcases List.mem_append.mp hx with h | h
          · exact Or.inl h
          · simp at h
            subst h
            exact Or.inr ⟨hline2, hstd2⟩
      · split
        · exact ⟨fun x hx => Or.inl hx, fun x hx => Or.inl hx⟩
        · constructor
          · exact fun x hx => Or.inl hx
          · intro x hx
            rcases List.mem_append.mp hx with h | h
            · exact Or.inl h
            · simp at h
              subst h
              exact Or.inr ⟨hline2, hstd2⟩

theorem bucketFold_spec (p : Str) :
    ∀ (L : List Str) (acc : List Str × List Str × List Str),
      (∀ x ∈ acc.1, isImportLine x = true ∧ isStdRecognized x = true) →
      (∀ x ∈ acc.2.1, isImportLine x = true ∧ isStdRecognized x = false) →
      (∀ x ∈ (L.foldl (bucketStep p) acc).1,
         isImportLine x = true ∧ isStdRecognized x = true) ∧
      (∀ x ∈ (L.foldl (bucketStep p) acc).2.1,
         isImportLine x = true ∧ isStdRecognized x = false) := by
  intro L
  induction L with
  | nil => intro acc h1 h2; exact ⟨h1, h2⟩
  | cons i rest ih =>
    intro acc h1 h2
    refine ih (bucketStep p acc i) ?_ ?_
    · intro x hx
      rcases (bucketStep_cases p acc i).1 x hx with h | h
      · exact h1 x h
      · exact h
    · intro x hx
      rcases (bucketStep_cases p acc i).2 x hx with h | h
      · exact h2 x h
      · exact h

theorem bucketsOf_std_spec (I : List Str) (p : Str) :
    ∀ x ∈ (bucketsOf I p).1, isImportLine x = true ∧ isStdRecognized x = true := by
  intro x hx
  exact ((bucketFold_spec p (pySorted I) ([], [], [])
    (by intro y hy; simp at hy) (by intro y hy; simp at hy)).1) x hx

theorem bucketsOf_third_spec (I : List Str) (p : Str) :
    ∀ x ∈ (bucketsOf I p).2.1, isImportLine x = true ∧ isStdRecognized x = false := by
  intro x hx
  exact ((bucketFold_spec p (pySorted I) ([], [], [])
    (by intro y hy; simp at hy) (by intro y hy; simp at hy)).2) x hx

theorem thirdWithPytest_mem (t : List Str) :
    ∀ x ∈ thirdWithPytest t, x = ("import pytest".toList) ∨ x ∈ t := by
  unfold thirdWithPytest
  split
  · intro x hx
    rcases List.mem_cons.mp hx with h | h
    · exact Or.inl h
    · exact Or.inr h
  · exact fun x hx => Or.inr hx

theorem thirdWithPytest_ne_nil (t : List Str) : thirdWithPytest t ≠ [] := by
  unfold thirdWithPytest
  split
  · simp
  next h =>
    have h2 : (t.any fun i => pyContains i ("pytest".toList)) = true := by
      revert h; cases t.any fun i => pyContains i ("pytest".toList) <;> simp
    rcases List.any_eq_true.mp h2 with ⟨x, hx, _⟩
    exact List.ne_nil_of_mem hx

theorem thirdWithPytest_has_pytest (t : List Str) :
    ∃ x, x ∈ thirdWithPytest t ∧ pyContains x ("pytest".toList) = true := by
  unfold thirdWithPytest
  split
  · exact ⟨"import pytest".toList, List.mem_cons_self _ _, by decide⟩
  next h =>
    have h2 : (t.any fun i => pyContains i ("pytest".toList)) = true := by
      revert h; cases t.any fun i => pyContains i ("pytest".toList) <;> simp
    rcases List.any_eq_true.mp h2 with ⟨x, hx, hpy⟩
    exact ⟨x, hx, hpy⟩

/-! ## No-op lemmas for the normalizer stages -/

theorem stripFences_id (t : Str) (h : '`' ∉ t) : stripFences t = t := by
  induction t with
  | nil => rfl
  | cons c rest ih =>
    have hc : c ≠ '`' := fun he => h (he ▸ List.mem_cons_self c rest)
    have hrest : '`' ∉ rest := fun hm => h (List.mem_cons_of_mem _ hm)
    have hnp : fenceLit.isPrefixOf (c :: rest) = false := by
      have hlit : fenceLit = '`' :: ['`', '`'] := rfl
      rw [hlit]
      simp only [List.isPrefixOf, Bool.and_eq_true, Bool.and_eq_false_iff]
      simp [beq_eq_false_iff_ne, Ne.symm hc]
    show stripFencesAux (rest.length + 1) (c :: rest) = c :: rest
    simp only [stripFencesAux]
    rw [if_neg (by simp [hnp])]
    rw [show stripFencesAux rest.length rest = rest from ih hrest]

theorem dropWhile_id_of_all {p : Char → Bool} {t : Str} (h : ∀ c ∈ t, p c = false) :
    t.dropWhile p = t := by
  cases t with
  | nil => rfl
  | cons c rest => simp [List.dropWhile_cons, h c (List.mem_cons_self c rest)]

theorem stripWith_id {p : Char → Bool} {t : Str} (h : ∀ c ∈ t, p c = false) :
    stripWith p t = t := by
  unfold stripWith
  rw [dropWhile_id_of_all h]
  rw [dropWhile_id_of_all (fun c hc => h c (List.mem_reverse.mp hc))]
  exact List.reverse_reverse t

theorem pyReplace_id (old new s : Str) (h : pyContains s old = false) :
    pyReplace old new s = s := by
  induction s with
  | nil => rfl
  | cons c t ih =>
    have hnp : ¬(old ≠ [] ∧ old.isPrefixOf (c :: t) = true) := by
      rintro ⟨hne, hpre⟩
      have hcc := pyContains_of_prefixOf hpre
      rw [hcc] at h
      simp at h
    rw [pyReplace_cons, if_neg hnp]
    congr 1
    apply ih
    cases hb : pyContains t old
    · rfl
    · simp [pyContains, hb] at h

theorem dedupImportLines_noop :
    ∀ (lines seen : List Str),
      (lines.filter (fun l => isImportish (pyStrip l))).Nodup →
      (∀ l ∈ lines, isImportish (pyStrip l) = true → l ∉ seen) →
      dedupImportLinesAux seen lines = lines := by
  intro lines
  induction lines with
  | nil => intro seen _ _; rfl
  | cons l rest ih =>
    intro seen hnd hs
    by_cases him : isImportish (pyStrip l) = true
    · have hfc : (l :: rest).filter (fun x => isImportish (pyStrip x))
          = l :: rest.filter (fun x => isImportish (pyStrip x)) := by
        simp [List.filter_cons, him]
      rw [hfc] at hnd
      have hnd2 := List.nodup_cons.mp hnd
      simp only [dedupImportLinesAux]
      rw [if_pos him, if_neg (hs l (List.mem_cons_self _ _) him)]
      congr 1
      apply ih (seen ++ [l]) hnd2.2
      intro m hm himm
      intro hmem
      rcases List.mem_append.mp hmem with h1 | h1
      · exact hs m (List.mem_cons_of_mem _ hm) himm h1
      · simp at h1
        subst h1
        exact hnd2.1 (List.mem_filter.mpr ⟨hm, himm⟩)
    · have hfc : (l :: rest).filter (fun x => isImportish (pyStrip x))
          = rest.filter (fun x => isImportish (pyStrip x)) := by
        simp only [List.filter_cons]
        rw [if_neg (by simpa using him)]
      rw [hfc] at hnd
      simp only [dedupImportLinesAux]
      rw [if_neg him]
      congr 1
      exact ih seen hnd (fun m hm himm => hs m (List.mem_cons_of_mem _ hm) himm)

theorem ppFenced_id (t : Str) (hbt : '`' ∉ t) (hstrip : pyStrip t = t) :
    ppFenced t = t := by
  unfold ppFenced
  rw [stripFences_id t hbt]
  have hb : pyStripBackticks t = t := by
    apply stripWith_id
    intro c hc
    have hcne : c ≠ '`' := fun he => hbt (he ▸ hc)
    simp [hcne]
  rw [hb]
  exact hstrip

theorem ppPlaceholders_fold_id (p : Str) :
    ∀ (phs : List Str) (t : Str), (∀ ph ∈ phs, pyContains t ph = false) →
      phs.foldl
        (fun s ph =>
          pyReplace ("import ".toList ++ ph) ("import ".toList ++ p)
            (pyReplace ("from ".toList ++ ph) ("from ".toList ++ p) s)) t = t := by
  intro phs
  induction phs with
  | nil => intro t _; rfl
  | cons ph rest ih =>
    intro t h
    have hph := h ph (List.mem_cons_self _ _)
    have h1 : pyContains t ("from ".toList ++ ph) = false := by
      cases hb : pyContains t ("from ".toList ++ ph)
      · rfl
      · rw [pyContains_drop_left hb] at hph
        simp at hph
    have h2 : pyContains t ("import ".toList ++ ph) = false := by
      cases hb : pyContains t ("import ".toList ++ ph)
      · rfl
      · rw [pyContains_drop_left hb] at hph
        simp at hph
    simp only [List.foldl_cons]
    rw [pyReplace_id _ _ _ h1, pyReplace_id _ _ _ h2]
    exact ih t (fun q hq => h q (List.mem_cons_of_mem _ hq))

theorem ppPlaceholders_id (p t : Str)
    (h : ∀ ph ∈ normalizerPlaceholders, pyContains t ph = false) :
    ppPlaceholders p t = t :=
  ppPlaceholders_fold_id p normalizerPlaceholders t h

theorem ppRelative_id (p t : Str) (h : pyContains t fromDotLit = false) :
    ppRelative p t = t := by
  unfold ppRelative
  rw [if_neg (by simp [h])]

theorem ppInsert_id_of_contains (p fn t : Str) (h : pyContains t p = true) :
    ppInsert p fn t = t := by
  unfold ppInsert
  rw [if_neg (by simp [h])]

theorem ppDedup_id (t : Str)
    (hnd : ((pySplitChar '\n' t).filter (fun l => isImportish (pyStrip l))).Nodup)
    (hstrip : pyStrip t = t) : ppDedup t = t := by
  unfold ppDedup
  rw [dedupImportLines_noop _ [] hnd (by intro l _ _; simp)]
  rw [joinNl_splitChar]
  exact hstrip

/-- A line of the third-party section is a line of `content_parts`. -/
theorem mem_contentParts_third (I F : List Str) (n p : Str) (x : Str)
    (hx : x ∈ thirdWithPytest (bucketsOf I p).2.1) :
    x ∈ contentParts I F n p := by
  rcases hb : bucketsOf I p with ⟨s, t, l⟩
  rw [hb] at hx
  have h1 : x ∈ (if thirdWithPytest t ≠ [] then thirdWithPytest t ++ [[]]
      else ([] : List Str)) := by
    rw [if_pos (thirdWithPytest_ne_nil t)]
    exact List.mem_append.mpr (Or.inl hx)
  simp only [contentParts, hb]
  simp only [List.mem_append]
  tauto

/-! ## Claim theorems -/

/-- C2, counterexample: the input closes the block `def test_a(): x = 1` with
    the non-indented line `y = 2`; the block contains no assertion, no `pass`
    and no `raise`, yet it is returned in the function-block list, refuting
    the claim that such blocks are excluded regardless of how they are
    closed. -/
theorem c2_counterexample :
    (extractImportsAndFunctions ("def test_a():\n    x = 1\ny = 2".toList)).2
      = ["def test_a():\n    x = 1".toList]
    ∧ isCompleteBlock ("def test_a():\n    x = 1".toList) = false := by decide

/-- C2 (amended): the completeness filter (an assertion, `pass` or `raise`
    somewhere in the block) is applied only to the block still open at end of
    input.  Every block of the returned list that fails the filter was closed
    during the scan (by a non-indented line, a decorator or a new `def test_`
    start), and the end-of-input block is emitted only when it passes the
    filter. -/
theorem c2_amended_completeness_filter (text : Str) :
    (∀ f ∈ (extractImportsAndFunctions text).2, isCompleteBlock f = false →
       f ∈ (scanLines (linesOf text)).functions) ∧
    (∀ g ∈ eofBlock (scanLines (linesOf text)), isCompleteBlock g = true) := by
  constructor
  · intro f hf hc
    have h1 : f ∈ rawFunctions (scanLines (linesOf text)) := dedupAux_subset _ [] f hf
    rcases List.mem_append.mp h1 with h | h
    · exact h
    · exfalso
      unfold eofBlock at h
      split at h
      · split at h
        next hcomp =>
          simp at h
          subst h
          rw [hcomp] at hc
          simp at hc
        next => simp at h
      · simp at h
  · intro g hg
    unfold eofBlock at hg
    split at hg
    · split at hg
      next hcomp =>
        simp at hg
        subst hg
        exact hcomp
      next => simp at hg
    · simp at hg

/-- C2 witness: the amended theorem applied to the counterexample input. -/
theorem c2_amended_completeness_filter_witness :
    ("def test_a():\n    x = 1".toList)
      ∈ (scanLines (linesOf ("def test_a():\n    x = 1\ny = 2".toList))).functions :=
  (c2_amended_completeness_filter ("def test_a():\n    x = 1\ny = 2".toList)).1
    ("def test_a():\n    x = 1".toList) (by decide) (by decide)

/-- C3, counterexample: two generations for the same source file each yield a
    block named `test_x`; the accumulation of `process_file` concatenates them
    without cross-generation deduplication, and the assembled file renders the
    identically-named block twice, refuting the claimed invariant for the
    blocks accumulated for one source file. -/
theorem c3_counterexample :
    (accumulateValid ["def test_x():\n    assert True".toList,
                      "def test_x():\n    assert True".toList]).2
      = ["def test_x():\n    assert True".toList,
         "def test_x():\n    assert True".toList]
    ∧ blockName ("def test_x():\n    assert True".toList) = some ("test_x".toList)
    ∧ pyContains
        (combineTestCode
          (accumulateValid ["def test_x():\n    assert True".toList,
                            "def test_x():\n    assert True".toList]).1
          (accumulateValid ["def test_x():\n    assert True".toList,
                            "def test_x():\n    assert True".toList]).2
          ("mod".toList) ("mod".toList))
        ("def test_x():\n    assert True".toList ++ "\n\n\n".toList
          ++ "def test_x():\n    assert True".toList) = true := by decide

/-- C3 (amended): within the block list recovered from a single generated
    snippet the invariant holds — the declared names of the returned blocks
    are pairwise distinct, and each returned block is the first block of the
    pre-deduplication scan output bearing its name.  Blocks accumulated from
    different generations of the same source file are concatenated without
    cross-generation deduplication. -/
theorem c3_amended_dedup_single_generation (text : Str) :
    ((extractImportsAndFunctions text).2.map blockName).Nodup ∧
    ∀ f ∈ (extractImportsAndFunctions text).2,
      (rawFunctions (scanLines (linesOf text))).find?
        (fun g => blockName g == blockName f) = some f := by
  have h := dedupAux_spec (rawFunctions (scanLines (linesOf text))) []
  refine ⟨h.1, ?_⟩
  intro f hf
  obtain ⟨nm, _, _, h3⟩ := h.2 f hf
  exact h3

/-- C3 witness: the amended theorem applied to a snippet with two blocks of
    the same declared name; the first block in scan order is the one
    retained. -/
theorem c3_amended_dedup_single_generation_witness :
    ((extractImportsAndFunctions
        ("def test_x():\n    assert True\ndef test_x():\n    assert False".toList)).2.map
          blockName).Nodup
    ∧ (rawFunctions (scanLines (linesOf
        ("def test_x():\n    assert True\ndef test_x():\n    assert False".toList)))).find?
        (fun g => blockName g == blockName ("def test_x():\n    assert True".toList))
        = some ("def test_x():\n    assert True".toList) :=
  ⟨(c3_amended_dedup_single_generation
      ("def test_x():\n    assert True\ndef test_x():\n    assert False".toList)).1,
   (c3_amended_dedup_single_generation
      ("def test_x():\n    assert True\ndef test_x():\n    assert False".toList)).2
      ("def test_x():\n    assert True".toList) (by decide)⟩

/-- C7: a recovered import line referencing a `test_`-named module is never
    retained.  First conjunct: the recovery parser never admits an import
    containing `from test_` into the recovered import set.  Second conjunct:
    when the real import path is not itself `test_`-named, no line produced by
    `refine_local_imports` — the local bucket of the assembled file — starts
    with `from test_`. -/
theorem c7_self_import_rejection :
    (∀ text imp, imp ∈ (extractImportsAndFunctions text).1 →
       pyContains imp ("from test_".toList) = false) ∧
    (∀ I p stem l, pyStarts p ("test_".toList) = false →
       l ∈ refineLocalImports I p stem →
       pyStarts l ("from test_".toList) = false) :=
  ⟨fun text imp h => extract_imports_no_from_test text imp h,
   fun I p stem l hp hl => refined_not_from_test I p stem l hp hl⟩

/-- C7 witness: the recovery filter applied to a text containing a self
    import, and the refine filter applied to a local bucket containing one. -/
theorem c7_self_import_rejection_witness :
    pyContains ("import os".toList) ("from test_".toList) = false ∧
    pyStarts ("from pkg.mod import *".toList) ("from test_".toList) = false :=
  ⟨c7_self_import_rejection.1
      ("from test_mod import x\nimport os\ndef test_a():\n    pass".toList)
      ("import os".toList) (by decide),
   c7_self_import_rejection.2 ["from test_foo import bar".toList]
      ("pkg.mod".toList) ("mod".toList) ("from pkg.mod import *".toList)
      (by decide) (by decide)⟩

/-- C10: every function block returned by `extract_imports_and_functions`
    contains a line that begins at column zero with `def test_`; the final
    name-scanning deduplication pass silently drops any accumulated block
    without such a line. -/
theorem c10_blocks_have_def_test_line (text f : Str)
    (hf : f ∈ (extractImportsAndFunctions text).2) :
    ∃ l, l ∈ pySplitChar '\n' f ∧ pyStarts l defTestLit = true := by
  obtain ⟨nm, h1, _, _⟩ :=
    (dedupAux_spec (rawFunctions (scanLines (linesOf text))) []).2 f hf
  unfold blockName at h1
  rcases hdl : findDefLine f with _ | dl
  · rw [hdl] at h1
    simp at h1
  · unfold findDefLine at hdl
    have hmem := List.mem_of_find?_eq_some hdl
    have hp : pyStarts dl defTestLit = true := by
      have h2 := List.find?_some hdl
      simpa using h2
    exact ⟨dl, hmem, hp⟩

/-- C10 witness: the theorem applied to a concrete generation. -/
theorem c10_blocks_have_def_test_line_witness :
    ∃ l, l ∈ pySplitChar '\n' ("def test_a():\n    assert True".toList)
      ∧ pyStarts l defTestLit = true :=
  c10_blocks_have_def_test_line ("import os\ndef test_a():\n    assert True".toList)
    ("def test_a():\n    assert True".toList) (by decide)

/-- C1: `append` is not idempotent.  Rendering two complete test functions
    with `combine_test_code` and appending an empty generation through
    `append_test_to_file` re-extracts both blocks; the blank separator lines
    are swallowed into the first block's text, so the re-rendered file gains
    two extra blank lines between the functions and differs from the original
    file.  The equalities pin the exact texts; the final inequality is the
    violation of `append(combine(I,F,n,p), "", n, p) == combine(I,F,n,p)`. -/
theorem c1_append_not_idempotent :
    combineTestCode []
        ["def test_a():\n    assert True".toList, "def test_b():\n    assert True".toList]
        ("mod".toList) ("mod".toList)
      = ("\"\"\"Tests for mod module.\"\"\"\n\nimport pytest\n\n\ndef test_a():\n    assert True\n\n\ndef test_b():\n    assert True\n".toList)
    ∧ appendTestCode
        ("\"\"\"Tests for mod module.\"\"\"\n\nimport pytest\n\n\ndef test_a():\n    assert True\n\n\ndef test_b():\n    assert True\n".toList)
        [] ("test_mod".toList)
      = ("\"\"\"Tests for mod module.\"\"\"\n\nimport pytest\n\n\ndef test_a():\n    assert True\n\n\n\n\ndef test_b():\n    assert True\n".toList)
    ∧ appendTestCode
        (combineTestCode []
          ["def test_a():\n    assert True".toList, "def test_b():\n    assert True".toList]
          ("mod".toList) ("mod".toList))
        [] ("test_mod".toList)
      ≠ combineTestCode []
          ["def test_a():\n    assert True".toList, "def test_b():\n    assert True".toList]
          ("mod".toList) ("mod".toList) := by
  refine ⟨by decide, by decide, ?_⟩
  decide

/-- C4, counterexample: the input text contains the line
    `from your_module import foo` and also a bare occurrence of `your_module`
    in an expression; the normalizer rewrites the import line but leaves the
    bare occurrence, so the output still contains `your_module`, refuting the
    claim that no occurrence remains. -/
theorem c4_counterexample :
    ("from your_module import foo".toList)
        ∈ pySplitChar '\n'
            ("from your_module import foo\nassert your_module.foo(1) == 1".toList)
    ∧ pyContains
        (postprocessTestCodeEnhanced
          ("from your_module import foo\nassert your_module.foo(1) == 1".toList)
          ("foo".toList) ("pkg.mod".toList) ("mod".toList))
        ("from pkg.mod import foo".toList) = true
    ∧ pyContains
        (postprocessTestCodeEnhanced
          ("from your_module import foo\nassert your_module.foo(1) == 1".toList)
          ("foo".toList) ("pkg.mod".toList) ("mod".toList))
        ("your_module".toList) = true := by
  refine ⟨by decide, by decide, ?_⟩
  decide

/-- C4 (amended): placeholder resolution rewrites `from your_module` /
    `import your_module` occurrences to the real path.  On the import line
    itself — for every function name and module name argument — the result is
    exactly `from pkg.mod import foo`, which contains the resolved import and
    no occurrence of `your_module`; occurrences of `your_module` outside
    `from`/`import` position are not rewritten and may survive in larger
    texts. -/
theorem c4_amended_placeholder_resolution (fn n : Str) :
    postprocessTestCodeEnhanced ("from your_module import foo".toList) fn
        ("pkg.mod".toList) n
      = ("from pkg.mod import foo".toList)
    ∧ pyContains
        (postprocessTestCodeEnhanced ("from your_module import foo".toList) fn
          ("pkg.mod".toList) n)
        ("your_module".toList) = false := by
  have h1 : ppFenced ("from your_module import foo".toList)
      = ("from your_module import foo".toList) := by decide
  have h2 : ppPlaceholders ("pkg.mod".toList) ("from your_module import foo".toList)
      = ("from pkg.mod import foo".toList) := by decide
  have h3 : ppRelative ("pkg.mod".toList) ("from pkg.mod import foo".toList)
      = ("from pkg.mod import foo".toList) := by decide
  have h4 : ppInsert ("pkg.mod".toList) fn ("from pkg.mod import foo".toList)
      = ("from pkg.mod import foo".toList) :=
    ppInsert_id_of_contains _ _ _ (by decide)
  have h5 : ppDedup ("from pkg.mod import foo".toList)
      = ("from pkg.mod import foo".toList) := by decide
  have hmain : postprocessTestCodeEnhanced ("from your_module import foo".toList) fn
      ("pkg.mod".toList) n = ("from pkg.mod import foo".toList) := by
    unfold postprocessTestCodeEnhanced
    rw [h1, h2, h3, h4, h5]
  refine ⟨hmain, ?_⟩
  rw [hmain]
  decide

/-- C5: ordering of the assembled file.  The classified standard bucket holds
    only recognized standard import lines, the pytest-completed third-party
    bucket holds the inserted `import pytest` line and lines classified out of
    the standard bucket, the refined local section holds only import lines,
    and the rendered text is the newline join of: the docstring header, the
    standard section, then the third-party section, then the local section,
    then the function blocks — so all standard lines precede all third-party
    lines, which precede all local lines, which precede the first function
    block. -/
theorem c5_import_ordering (I F : List Str) (n p : Str) :
    (∀ x ∈ (bucketsOf I p).1, isImportLine x = true ∧ isStdRecognized x = true) ∧
    (∀ x ∈ thirdWithPytest (bucketsOf I p).2.1,
       x = ("import pytest".toList) ∨ (isImportLine x = true ∧ isStdRecognized x = false)) ∧
    (∀ x ∈ refineLocalImports (bucketsOf I p).2.2 p n, isImportLine x = true) ∧
    combineTestCode I F n p =
      joinNl ([docLine n, []]
        ++ (if (bucketsOf I p).1 ≠ [] then (bucketsOf I p).1 ++ [[]] else [])
        ++ (thirdWithPytest (bucketsOf I p).2.1 ++ [[]])
        ++ (if (bucketsOf I p).2.2 ≠ []
            then refineLocalImports (bucketsOf I p).2.2 p n ++ [[]] else [])
        ++ [[]] ++ renderFns F ++ [[]]) := by
  refine ⟨bucketsOf_std_spec I p, ?_, ?_, ?_⟩
  · intro x hx
    rcases thirdWithPytest_mem _ x hx with h | h
    · exact Or.inl h
    · exact Or.inr (bucketsOf_third_spec I p x h)
  · intro x hx
    exact refined_isImportLine _ p n x hx
  · rcases hb : bucketsOf I p with ⟨s, t, l⟩
    simp only [combineTestCode, contentParts, hb]
    rw [if_pos (thirdWithPytest_ne_nil t)]

/-- C5 witness: the ordering theorem applied to a concrete import set with
    all three buckets populated. -/
theorem c5_import_ordering_witness :
    (isImportLine ("import os".toList) = true
      ∧ isStdRecognized ("import os".toList) = true)
    ∧ (("import flask".toList) = ("import pytest".toList)
        ∨ (isImportLine ("import flask".toList) = true
            ∧ isStdRecognized ("import flask".toList) = false))
    ∧ isImportLine ("from app import helper".toList) = true :=
  ⟨(c5_import_ordering
      ["import os".toList, "import flask".toList, "from app import helper".toList]
      ["def test_a():\n    assert True".toList] ("mod".toList) ("app".toList)).1
      ("import os".toList) (by decide),
   (c5_import_ordering
      ["import os".toList, "import flask".toList, "from app import helper".toList]
      ["def test_a():\n    assert True".toList] ("mod".toList) ("app".toList)).2.1
      ("import flask".toList) (by decide),
   (c5_import_ordering
      ["import os".toList, "import flask".toList, "from app import helper".toList]
      ["def test_a():\n    assert True".toList] ("mod".toList) ("app".toList)).2.2.1
      ("from app import helper".toList) (by decide)⟩

/-- C6: the assembled file always carries a pytest import among the
    third-party lines: some line of the pytest-completed third-party bucket
    mentions `pytest` and occurs in the rendered file text, and whenever no
    recovered third-party import mentions pytest, the literal line
    `import pytest` is inserted at the front of the bucket. -/
theorem c6_pytest_always_present (I F : List Str) (n p : Str) :
    (∃ x, x ∈ thirdWithPytest (bucketsOf I p).2.1
       ∧ pyContains x ("pytest".toList) = true
       ∧ pyContains (combineTestCode I F n p) x = true) ∧
    (((bucketsOf I p).2.1.any fun i => pyContains i ("pytest".toList)) = false →
      thirdWithPytest (bucketsOf I p).2.1
        = ("import pytest".toList) :: (bucketsOf I p).2.1) := by
  constructor
  · obtain ⟨x, hx, hpy⟩ := thirdWithPytest_has_pytest (bucketsOf I p).2.1
    refine ⟨x, hx, hpy, ?_⟩
    have hmem := mem_contentParts_third I F n p x hx
    exact pyContains_pyJoin_of_mem hmem
  · intro h
    unfold thirdWithPytest
    rw [if_pos (by rw [h]; rfl : (!((bucketsOf I p).2.1.any fun i =>
      pyContains i ("pytest".toList))) = true)]

/-- C6 witness: the insertion conjunct applied to an import set recovering no
    pytest import. -/
theorem c6_pytest_always_present_witness :
    thirdWithPytest (bucketsOf ["import flask".toList] ("app".toList)).2.1
      = ("import pytest".toList)
          :: (bucketsOf ["import flask".toList] ("app".toList)).2.1 :=
  (c6_pytest_always_present ["import flask".toList]
    ["def test_a():\n    assert True".toList] ("mod".toList) ("app".toList)).2
    (by decide)

/-- C8: the snippet normalizer is total.  First conjunct: the normalizer with
    every stage lifted into the `Except` error channel returns `ok` on every
    input — no string operation used by the source can raise on `str` inputs,
    so no failure path exists.  Second conjunct (the conservative/fallback
    behaviour): on an input that no normalization step applies to — already
    trimmed, no fence, no placeholder, no relative import, real path present,
    no duplicate import lines — the text is returned unchanged. -/
theorem c8_normalizer_total_and_conservative :
    (∀ t fn p n, postprocessE t fn p n
        = Except.ok (postprocessTestCodeEnhanced t fn p n)) ∧
    (∀ t fn p n, pyStrip t = t → '`' ∉ t →
       (∀ ph ∈ normalizerPlaceholders, pyContains t ph = false) →
       pyContains t fromDotLit = false →
       pyContains t p = true →
       ((pySplitChar '\n' t).filter fun l => isImportish (pyStrip l)).Nodup →
       postprocessTestCodeEnhanced t fn p n = t) := by
  constructor
  · intro t fn p n
    rfl
  · intro t fn p n h0 h1 h2 h3 h4 h5
    unfold postprocessTestCodeEnhanced
    rw [ppFenced_id t h1 h0, ppPlaceholders_id p t h2, ppRelative_id p t h3,
      ppInsert_id_of_contains p fn t h4]
    exact ppDedup_id t h5 h0

/-- C8 witness: both conjuncts applied to a clean concrete snippet. -/
theorem c8_normalizer_total_and_conservative_witness :
    postprocessE ("def test_f():\n    assert pkg.mod.f(1) == 2".toList)
        ("f".toList) ("pkg.mod".toList) ("mod".toList)
      = Except.ok (postprocessTestCodeEnhanced
          ("def test_f():\n    assert pkg.mod.f(1) == 2".toList)
          ("f".toList) ("pkg.mod".toList) ("mod".toList))
    ∧ postprocessTestCodeEnhanced ("def test_f():\n    assert pkg.mod.f(1) == 2".toList)
        ("f".toList) ("pkg.mod".toList) ("mod".toList)
      = ("def test_f():\n    assert pkg.mod.f(1) == 2".toList) :=
  ⟨c8_normalizer_total_and_conservative.1 _ _ _ _,
   c8_normalizer_total_and_conservative.2
      ("def test_f():\n    assert pkg.mod.f(1) == 2".toList)
      ("f".toList) ("pkg.mod".toList) ("mod".toList)
      (by decide) (by decide) (by decide) (by decide) (by decide) (by decide)⟩

/-- C9: the structure extractor fails exactly when the source text is not
    parseable.  When the parse oracle reports a syntax error, the analysis
    returns that error and no partial structure, and `process_file` catches it
    and skips the file (a normal return carrying a diagnostic, so a run over
    other files continues); and the analysis succeeds if and only if the parse
    does — everything after the parse is total. -/
theorem c9_structural_error_skips_file :
    (∀ (parse : Str → Except Str PyNode) (sourceCode e : Str),
       parse sourceCode = Except.error e →
       sourceCodeAnalysis parse sourceCode = Except.error e ∧
       processFileAnalysis parse sourceCode = ProcessOutcome.analysisFailed e) ∧
    (∀ (parse : Str → Except Str PyNode) (sourceCode : Str),
       (sourceCodeAnalysis parse sourceCode).isOk = (parse sourceCode).isOk) := by
  constructor
  · intro parse sourceCode e h
    constructor
    · unfold sourceCodeAnalysis
      rw [h]
    · unfold processFileAnalysis sourceCodeAnalysis
      rw [h]
  · intro parse sourceCode
    unfold sourceCodeAnalysis
    cases parse sourceCode <;> rfl

/-- C9 witness: a parse oracle failing with a `SyntaxError` message makes the
    analysis fail with that error and the file processor skip the file. -/
theorem c9_structural_error_skips_file_witness :
    sourceCodeAnalysis (fun _ => Except.error ("SyntaxError: invalid syntax".toList))
        ("def broken(:".toList)
      = Except.error ("SyntaxError: invalid syntax".toList)
    ∧ processFileAnalysis (fun _ => Except.error ("SyntaxError: invalid syntax".toList))
        ("def broken(:".toList)
      = ProcessOutcome.analysisFailed ("SyntaxError: invalid syntax".toList) :=
  c9_structural_error_skips_file.1
    (fun _ => Except.error ("SyntaxError: invalid syntax".toList))
    ("def broken(:".toList) ("SyntaxError: invalid syntax".toList) rfl

end UTGen
